import Mathlib

/-!
Verification of the Metropolis sampling loop of `MCMC_example.ipynb` (cell 9):

```
x_target = []
x_current = 0
scale = 0.2
for i in range(1000000):
    x_proposal = x_current - np.random.uniform(low=-scale/2, high=scale/2)
    if np.random.uniform() < min(1, target_dist(x_proposal)/target_dist(x_current)):
        x_target.append(x_proposal)
        x_current = x_proposal
```

The loop is embedded shallowly: the two random draws of each iteration become
explicit inputs (`delta`, `u`), the target density is an explicit function
argument, and the mutable variables `x_current` / `x_target` become a state
record threaded through `step` / `run`.  Real numbers are modelled by `ℚ`
(the claims under study depend only on sign/zero patterns and order, never on
rounding), but the *division* in the acceptance ratio keeps IEEE-754 float
semantics, because the source divides by `target_dist(x_current)` which can be
zero: `tp/0` is `+inf` for `tp > 0`, `-inf` for `tp < 0`, and `nan` for
`tp = 0` (the notebook output shows the corresponding numpy
`RuntimeWarning: divide by zero encountered in double_scalars`).
Python's builtin `min(1, x)` keeps its first argument unless `x < 1`, so
`min(1, nan) = 1` and `min(1, inf) = 1`, while `min(1, -inf) = -inf`.
-/

/-- The mutable state of the sampling loop in cell 9: the chain position
`x_current` and the list `x_target` of emitted (accepted) samples, in
append order. -/
structure MState where
  x_current : ℚ
  x_target : List ℚ
deriving DecidableEq, Repr

/-- Result of the float division `target_dist(x_proposal)/target_dist(x_current)`:
a finite value, a signed infinity, or nan. -/
inductive FloatDivResult where
  | num (q : ℚ)
  | posInf
  | negInf
  | nan
deriving DecidableEq, Repr

/-- IEEE-754 division semantics of `tp / tc` restricted to exact values:
division by zero yields a signed infinity for a nonzero numerator and nan
for `0/0`.  This is what numpy float64 division does in cell 9 (emitting a
`RuntimeWarning` in the zero-denominator cases, as seen in the notebook
output). -/
def floatDiv (tp tc : ℚ) : FloatDivResult :=
  if tc ≠ 0 then .num (tp / tc)
  else if 0 < tp then .posInf
  else if tp < 0 then .negInf
  else .nan

/-- The value of Python's builtin `min(1, x)`: `min` keeps its first
argument `1` unless `x < 1` holds.  Hence `min(1, nan) = 1` (the comparison
`nan < 1` is false) and `min(1, +inf) = 1`, while `min(1, -inf) = -inf`;
for finite `x` it is the usual minimum.  The result is therefore either a
finite value or `-inf`. -/
inductive AccValue where
  | num (q : ℚ)
  | negInf
deriving DecidableEq, Repr

/-- Python's `min(1, x)` applied to the float division result. -/
def pyMinOne : FloatDivResult → AccValue
  | .num q => .num (min 1 q)
  | .posInf => .num 1
  | .negInf => .negInf
  | .nan => .num 1

/-- The acceptance quantity `min(1, target_dist(x_proposal)/target_dist(x_current))`
computed in cell 9, under float semantics. -/
def acceptValue (target_dist : ℚ → ℚ) (x_current x_proposal : ℚ) : AccValue :=
  pyMinOne (floatDiv (target_dist x_proposal) (target_dist x_current))

/-- The comparison `u < a` of the acceptance test, where `a` may be `-inf`
(in which case it is false for every real `u`). -/
def uLtAcc (u : ℚ) : AccValue → Bool
  | .num a => decide (u < a)
  | .negInf => false

/-- The acceptance test of cell 9:
`np.random.uniform() < min(1, target_dist(x_proposal)/target_dist(x_current))`
with the drawn uniform `u` made explicit. -/
def accepts (target_dist : ℚ → ℚ) (st : MState) (delta u : ℚ) : Bool :=
  uLtAcc u (acceptValue target_dist st.x_current (st.x_current - delta))

/-- One iteration of the loop body of cell 9: propose
`x_proposal = x_current - delta`, and on acceptance append `x_proposal` to
`x_target` and set `x_current := x_proposal`; otherwise leave the state
unchanged. -/
def step (target_dist : ℚ → ℚ) (st : MState) (delta u : ℚ) : MState :=
  let x_proposal := st.x_current - delta
  if accepts target_dist st delta u then
    ⟨x_proposal, st.x_target ++ [x_proposal]⟩
  else
    st

/-- The full loop of cell 9, consuming one `(delta, u)` pair of randomness
per iteration. -/
def run (target_dist : ℚ → ℚ) (st : MState) : List (ℚ × ℚ) → MState
  | [] => st
  | (d, u) :: rest => run target_dist (step target_dist st d u) rest

/-- Support of `np.random.uniform(low, high)`: per numpy's documentation the
samples lie in the half-open interval `[low, high)` — `low` included, `high`
excluded. -/
def npUniformSupport (low high x : ℚ) : Prop :=
  low ≤ x ∧ x < high

instance (low high x : ℚ) : Decidable (npUniformSupport low high x) := by
  unfold npUniformSupport
  infer_instance

/-- The computed acceptance quantity is a finite value `a` with `0 ≤ a ≤ 1`. -/
def AccValue.isProb : AccValue → Prop
  | .num a => 0 ≤ a ∧ a ≤ 1
  | .negInf => False

/-- One iteration of the loop body when the target density may fail to
evaluate (`none` models a raised Python exception).  Python evaluates
`target_dist(x_proposal)` first, then `target_dist(x_current)`; a raised
exception aborts the iteration and propagates out of the loop, carrying
the offending position; the enclosing scope retains the records emitted so
far, so the error is paired with the pre-iteration state. -/
def stepE (target_dist : ℚ → Option ℚ) (st : MState) (delta u : ℚ) :
    Except (ℚ × MState) MState :=
  let x_proposal := st.x_current - delta
  match target_dist x_proposal with
  | none => .error (x_proposal, st)
  | some tp =>
    match target_dist st.x_current with
    | none => .error (st.x_current, st)
    | some tc =>
      .ok (if uLtAcc u (pyMinOne (floatDiv tp tc)) then
            ⟨x_proposal, st.x_target ++ [x_proposal]⟩
          else st)

/-- The loop of cell 9 with a fallible target density: an exception in any
iteration halts the whole run and propagates. -/
def runE (target_dist : ℚ → Option ℚ) (st : MState) :
    List (ℚ × ℚ) → Except (ℚ × MState) MState
  | [] => .ok st
  | (d, u) :: rest =>
    (stepE target_dist st d u).bind fun st1 => runE target_dist st1 rest

/-! ### Basic lemmas about one iteration -/

theorem step_of_accepts (target_dist : ℚ → ℚ) (st : MState) (delta u : ℚ)
    (h : accepts target_dist st delta u = true) :
    step target_dist st delta u =
      ⟨st.x_current - delta, st.x_target ++ [st.x_current - delta]⟩ := by
  simp [step, h]

theorem step_of_rejects (target_dist : ℚ → ℚ) (st : MState) (delta u : ℚ)
    (h : accepts target_dist st delta u = false) :
    step target_dist st delta u = st := by
  simp [step, h]

theorem acceptValue_of_current_ne_zero (target_dist : ℚ → ℚ) (xc xp : ℚ)
    (h : target_dist xc ≠ 0) :
    acceptValue target_dist xc xp =
      .num (min 1 (target_dist xp / target_dist xc)) := by
  simp [acceptValue, floatDiv, h, pyMinOne]

theorem acceptValue_of_current_zero_proposal_pos (target_dist : ℚ → ℚ) (xc xp : ℚ)
    (h : target_dist xc = 0) (hp : 0 < target_dist xp) :
    acceptValue target_dist xc xp = .num 1 := by
  simp [acceptValue, floatDiv, h, hp, pyMinOne]

theorem acceptValue_of_both_zero (target_dist : ℚ → ℚ) (xc xp : ℚ)
    (h : target_dist xc = 0) (hp : target_dist xp = 0) :
    acceptValue target_dist xc xp = .num 1 := by
  simp [acceptValue, floatDiv, h, hp, pyMinOne]

theorem acceptValue_of_current_zero_proposal_neg (target_dist : ℚ → ℚ) (xc xp : ℚ)
    (h : target_dist xc = 0) (hp : target_dist xp < 0) :
    acceptValue target_dist xc xp = .negInf := by
  simp [acceptValue, floatDiv, h, hp, pyMinOne, not_lt.mpr hp.le, asymm hp]

/-! ### Claim C1 -/

/-- C1 (counterexample): with the constant-zero target density, current
position 0 and delta = 1/10, both the current and the proposed density are
zero, yet the iteration does NOT remain in place: with u = 1/2 the proposal
is accepted and emitted, because the ratio 0/0 is nan and Python's
`min(1, nan)` evaluates to 1, so the test `u < 1` succeeds. -/
theorem c1_counterexample :
    (fun _ : ℚ => (0:ℚ)) 0 = 0 ∧
    (fun _ : ℚ => (0:ℚ)) ((0:ℚ) - 1/10) = 0 ∧
    step (fun _ => 0) ⟨0, []⟩ (1/10) (1/2) = ⟨-(1/10), [-(1/10)]⟩ := by
  refine ⟨rfl, rfl, ?_⟩
  norm_num [step, accepts, acceptValue, floatDiv, pyMinOne, uLtAcc]

/-- C1 (amended): when the target density is zero at both the current and
the proposed position, the ratio is nan, `min(1, nan)` evaluates to 1, and
for every drawn u < 1 (hence for every u in [0,1)) the proposal is
accepted: the chain moves to the proposal and emits it; the run continues
(numpy only signals a RuntimeWarning). -/
theorem c1_both_zero_is_accepted (target_dist : ℚ → ℚ) (st : MState) (delta u : ℚ)
    (hc : target_dist st.x_current = 0)
    (hp : target_dist (st.x_current - delta) = 0)
    (hu : u < 1) :
    accepts target_dist st delta u = true ∧
    step target_dist st delta u =
      ⟨st.x_current - delta, st.x_target ++ [st.x_current - delta]⟩ := by
  have ha : accepts target_dist st delta u = true := by
    simp [accepts, acceptValue_of_both_zero _ _ _ hc hp, uLtAcc, hu]
  exact ⟨ha, step_of_accepts _ _ _ _ ha⟩

/-- C1 witness: the amended theorem applied at the constant-zero density,
current position 1, delta = 1/2, u = 0. -/
theorem c1_witness :
    accepts (fun _ : ℚ => 0) ⟨1, []⟩ (1/2) 0 = true ∧
    step (fun _ : ℚ => 0) ⟨1, []⟩ (1/2) 0 = ⟨1 - 1/2, [1 - 1/2]⟩ :=
  c1_both_zero_is_accepted (fun _ => 0) ⟨1, []⟩ (1/2) 0 rfl rfl (by norm_num)

/-! ### Claim C2 -/

/-- C2: for a target density that is non-negative everywhere (the interface
contract of the density), the quantity computed by the acceptance test
equals `min(1, target_dist(x_proposal)/target_dist(x_current))` whenever the
current density is nonzero (the zero-denominator cases are governed by the
special conventions of C1/C4), and at every pair of positions the computed
value is a finite number in [0, 1]. -/
theorem c2_acceptance_formula_and_bound (target_dist : ℚ → ℚ) (xc xp : ℚ)
    (hnn : ∀ x, 0 ≤ target_dist x) :
    (target_dist xc ≠ 0 →
      acceptValue target_dist xc xp =
        .num (min 1 (target_dist xp / target_dist xc))) ∧
    (acceptValue target_dist xc xp).isProb := by
  refine ⟨fun h => acceptValue_of_current_ne_zero _ _ _ h, ?_⟩
  rcases eq_or_ne (target_dist xc) 0 with h | h
  · rcases eq_or_lt_of_le (hnn xp) with hp | hp
    · rw [acceptValue_of_both_zero _ _ _ h hp.symm]
      exact ⟨zero_le_one, le_refl 1⟩
    · rw [acceptValue_of_current_zero_proposal_pos _ _ _ h hp]
      exact ⟨zero_le_one, le_refl 1⟩
  · rw [acceptValue_of_current_ne_zero _ _ _ h]
    have hcpos : 0 < target_dist xc := (hnn xc).lt_of_ne (Ne.symm h)
    have hq : 0 ≤ target_dist xp / target_dist xc :=
      div_nonneg (hnn xp) hcpos.le
    exact ⟨le_min zero_le_one hq, min_le_left _ _⟩

/-- C2 witness: the theorem applied at the constant-one density with
current position 0 and proposal 3. -/
theorem c2_witness :
    ((fun _ : ℚ => (1:ℚ)) 0 ≠ 0 →
      acceptValue (fun _ : ℚ => 1) 0 3 =
        .num (min 1 ((fun _ : ℚ => (1:ℚ)) 3 / (fun _ : ℚ => (1:ℚ)) 0))) ∧
    (acceptValue (fun _ : ℚ => 1) 0 3).isProb :=
  c2_acceptance_formula_and_bound (fun _ => 1) 0 3 (fun _ => zero_le_one)

/-! ### Claim C3 -/

/-- C3 (counterexample): for scale = 1/5, the value -1/10 = -scale/2 is in
the support of `np.random.uniform(low=-scale/2, high=scale/2)` — numpy's
documented support is the half-open interval [low, high) — but it is not
strictly inside the open interval (-scale/2, scale/2): the low endpoint is
attainable, so proposed deltas are not strictly bounded below. -/
theorem c3_counterexample :
    npUniformSupport (-(1/5)/2) ((1/5)/2) (-(1/10)) ∧
    ¬(-(1/5)/2 < -(1/10) ∧ -(1/10) < (1/5)/2) := by
  constructor
  · constructor <;> norm_num
  · norm_num

/-- C3 (amended): every delta drawable by
`np.random.uniform(low=-scale/2, high=scale/2)` lies in the half-open
interval [-scale/2, scale/2) — the lower endpoint included, the upper
excluded — and the proposed position computed by the loop body is
`x_current - delta`: on acceptance the new current position equals
`x_current - delta`. -/
theorem c3_half_open_delta (scale delta : ℚ) (target_dist : ℚ → ℚ)
    (st : MState) (u : ℚ)
    (h : npUniformSupport (-scale/2) (scale/2) delta) :
    (-scale/2 ≤ delta ∧ delta < scale/2) ∧
    (accepts target_dist st delta u = true →
      (step target_dist st delta u).x_current = st.x_current - delta) := by
  refine ⟨h, fun ha => ?_⟩
  rw [step_of_accepts target_dist st delta u ha]

/-- C3 witness: the amended theorem applied at scale = 1/5, delta = -1/10
(the included lower endpoint), the constant-one density, current position 0
and u = 1/2; the acceptance hypothesis of the second conjunct is discharged
by evaluation. -/
theorem c3_witness :
    ((-(1/5)/2 : ℚ) ≤ -(1/10) ∧ (-(1/10) : ℚ) < (1/5)/2) ∧
    (step (fun _ : ℚ => 1) ⟨0, []⟩ (-(1/10)) (1/2)).x_current = 0 - -(1/10) :=
  ⟨(c3_half_open_delta (1/5) (-(1/10)) (fun _ => 1) ⟨0, []⟩ (1/2)
      (by constructor <;> norm_num)).1,
   (c3_half_open_delta (1/5) (-(1/10)) (fun _ => 1) ⟨0, []⟩ (1/2)
      (by constructor <;> norm_num)).2
     (by norm_num [accepts, acceptValue, floatDiv, pyMinOne, uLtAcc])⟩

/-! ### Claim C4 -/

/-- C4: if the target density is zero at the proposed position and strictly
positive at the current position, the computed acceptance value is 0 and no
u ≥ 0 (hence no u in [0,1)) can accept: the iteration is a rejection — the
state is unchanged and no record is emitted. -/
theorem c4_zero_proposal_rejected (target_dist : ℚ → ℚ) (st : MState) (delta u : ℚ)
    (hp : target_dist (st.x_current - delta) = 0)
    (hc : 0 < target_dist st.x_current)
    (hu : 0 ≤ u) :
    acceptValue target_dist st.x_current (st.x_current - delta) = .num 0 ∧
    accepts target_dist st delta u = false ∧
    step target_dist st delta u = st := by
  have hv : acceptValue target_dist st.x_current (st.x_current - delta) = .num 0 := by
    rw [acceptValue_of_current_ne_zero _ _ _ (ne_of_gt hc), hp]
    norm_num
  have ha : accepts target_dist st delta u = false := by
    simp [accepts, hv, uLtAcc, not_lt.mpr hu]
  exact ⟨hv, ha, step_of_rejects _ _ _ _ ha⟩

/-- C4 witness: the theorem applied at the density that is 1 at 0 and 0
elsewhere, current position 0, delta = 1 (proposal -1), u = 1/2. -/
theorem c4_witness :
    acceptValue (fun x : ℚ => if x = 0 then 1 else 0) 0 ((0:ℚ) - 1) = .num 0 ∧
    accepts (fun x : ℚ => if x = 0 then 1 else 0) ⟨0, []⟩ 1 (1/2) = false ∧
    step (fun x : ℚ => if x = 0 then 1 else 0) ⟨0, []⟩ 1 (1/2) = ⟨0, []⟩ :=
  c4_zero_proposal_rejected (fun x => if x = 0 then 1 else 0) ⟨0, []⟩ 1 (1/2)
    (by norm_num) (by norm_num) (by norm_num)

/-! ### Claim C5 -/

theorem accepts_const (c : ℚ) (hc : 0 < c) (st : MState) (delta u : ℚ)
    (hu : u < 1) :
    accepts (fun _ => c) st delta u = true := by
  have hv : acceptValue (fun _ => c) st.x_current (st.x_current - delta) = .num 1 := by
    rw [acceptValue_of_current_ne_zero _ _ _ (ne_of_gt hc)]
    rw [div_self (ne_of_gt hc)]
    simp
  simp [accepts, hv, uLtAcc, hu]

theorem run_const_length (c : ℚ) (hc : 0 < c) (st : MState)
    (rs : List (ℚ × ℚ)) (hu : ∀ p ∈ rs, p.2 < 1) :
    (run (fun _ => c) st rs).x_target.length = st.x_target.length + rs.length := by
  induction rs generalizing st with
  | nil => simp [run]
  | cons p rest ih =>
    obtain ⟨d, u⟩ := p
    rw [run, step_of_accepts _ _ _ _
      (accepts_const c hc st d u (hu (d, u) (List.mem_cons_self _ _)))]
    rw [ih _ (fun q hq => hu q (List.mem_cons_of_mem _ hq))]
    simp [List.length_append]
    omega

/-- C5: for a constant strictly positive target density, the computed
acceptance value is 1 at every pair of positions, every iteration whose
drawn u is in [0,1) is accepted, and a run over n randomness pairs (all u
in [0,1)) emits exactly n records. -/
theorem c5_constant_density_accepts_all (c : ℚ) (xc xp : ℚ) (st : MState)
    (delta u : ℚ) (rs : List (ℚ × ℚ)) (hc : 0 < c)
    (hu : ∀ p ∈ rs, 0 ≤ p.2 ∧ p.2 < 1) (hu1 : 0 ≤ u ∧ u < 1) :
    acceptValue (fun _ => c) xc xp = .num 1 ∧
    accepts (fun _ => c) st delta u = true ∧
    (run (fun _ => c) st rs).x_target.length = st.x_target.length + rs.length := by
  refine ⟨?_, accepts_const c hc st delta u hu1.2,
    run_const_length c hc st rs (fun p hp => (hu p hp).2)⟩
  rw [acceptValue_of_current_ne_zero _ _ _ (ne_of_gt hc)]
  rw [div_self (ne_of_gt hc)]
  simp

/-- C5 witness: the theorem applied at the constant-two density, positions
0 and 3, a two-iteration run. -/
theorem c5_witness :
    acceptValue (fun _ : ℚ => 2) 0 3 = .num 1 ∧
    accepts (fun _ : ℚ => 2) ⟨0, []⟩ 1 (1/2) = true ∧
    (run (fun _ : ℚ => 2) ⟨0, []⟩ [(1, 1/2), (0, 0)]).x_target.length = 2 :=
  c5_constant_density_accepts_all 2 0 3 ⟨0, []⟩ 1 (1/2) [(1, 1/2), (0, 0)]
    (by norm_num)
    (by rintro p hp; simp at hp; rcases hp with rfl | rfl <;> norm_num)
    (by norm_num)

/-! ### Claim C6 -/

theorem stepE_error_elim (target_dist : ℚ → Option ℚ) (st : MState)
    (d u pos : ℚ) (st' : MState)
    (h : stepE target_dist st d u = .error (pos, st')) :
    target_dist pos = none ∧ st' = st := by
  unfold stepE at h
  cases hp : target_dist (st.x_current - d) with
  | none =>
    simp only [hp, Except.error.injEq, Prod.mk.injEq] at h
    obtain ⟨h1, h2⟩ := h
    exact ⟨h1 ▸ hp, h2.symm⟩
  | some tp =>
    simp only [hp] at h
    cases hc : target_dist st.x_current with
    | none =>
      simp only [hc, Except.error.injEq, Prod.mk.injEq] at h
      obtain ⟨h1, h2⟩ := h
      exact ⟨h1 ▸ hc, h2.symm⟩
    | some tc =>
      simp only [hc] at h
      exact absurd h (by simp)

theorem runE_append (target_dist : ℚ → Option ℚ) (st : MState)
    (l1 l2 : List (ℚ × ℚ)) :
    runE target_dist st (l1 ++ l2) =
      (runE target_dist st l1).bind fun st1 => runE target_dist st1 l2 := by
  induction l1 generalizing st with
  | nil => rfl
  | cons p rest ih =>
    obtain ⟨d, u⟩ := p
    simp only [List.cons_append, runE]
    cases stepE target_dist st d u with
    | error e => rfl
    | ok st1 => exact ih st1

/-- C6: if the iterations before some point complete normally, reaching
state st' (whose `x_target` holds the records emitted so far), and the
target density fails to evaluate in the next iteration, then the whole run
fails: the propagated error carries a position at which the density fails
together with st' — the partial records are available to the caller — the
run halts there, and the remaining randomness `post` is never consumed
(the failing evaluation is not retried: the result does not depend on
`post`). -/
theorem c6_error_halt (target_dist : ℚ → Option ℚ) (st st' : MState)
    (pre post : List (ℚ × ℚ)) (d u pos : ℚ)
    (hpre : runE target_dist st pre = .ok st')
    (hfail : stepE target_dist st' d u = .error (pos, st')) :
    target_dist pos = none ∧
    runE target_dist st (pre ++ (d, u) :: post) = .error (pos, st') := by
  refine ⟨(stepE_error_elim target_dist st' d u pos st' hfail).1, ?_⟩
  rw [runE_append, hpre]
  show (stepE target_dist st' d u).bind _ = _
  rw [hfail]
  rfl

/-- C6 witness: the density defined only at 0 fails at the first proposal
-1; a run with a completed (empty) prefix and one further pending
iteration halts with the offending position and the empty partial record
list. -/
theorem c6_witness :
    (fun x : ℚ => if x = 0 then some (1 : ℚ) else none) (-1) = none ∧
    runE (fun x : ℚ => if x = 0 then some (1 : ℚ) else none) ⟨0, []⟩
        ([] ++ (1, 1/2) :: [(5, 1/2)]) = .error (-1, ⟨0, []⟩) := by
  exact c6_error_halt (fun x => if x = 0 then some 1 else none) ⟨0, []⟩ ⟨0, []⟩
    [] [(5, 1/2)] 1 (1/2) (-1) rfl
    (by norm_num [stepE])

/-! ### Claim C7 -/

theorem accepts_nonneg_proposal (target_dist : ℚ → ℚ) (st : MState)
    (delta u : ℚ) (hc : 0 ≤ target_dist st.x_current) (hu : 0 ≤ u)
    (ha : accepts target_dist st delta u = true) :
    0 ≤ target_dist (st.x_current - delta) := by
  by_contra hneg
  push_neg at hneg
  rcases eq_or_lt_of_le hc with h0 | hpos
  · rw [accepts, acceptValue_of_current_zero_proposal_neg _ _ _ h0.symm hneg] at ha
    simp [uLtAcc] at ha
  · rw [accepts, acceptValue_of_current_ne_zero _ _ _ (ne_of_gt hpos)] at ha
    simp only [uLtAcc, decide_eq_true_eq] at ha
    have hdiv : target_dist (st.x_current - delta) / target_dist st.x_current < 0 :=
      div_neg_of_neg_of_pos hneg hpos
    have := lt_of_lt_of_le ha (min_le_right _ _)
    linarith

theorem run_x_target_grows (target_dist : ℚ → ℚ) (st : MState)
    (rs : List (ℚ × ℚ)) :
    ∃ l, (run target_dist st rs).x_target = st.x_target ++ l := by
  induction rs generalizing st with
  | nil => exact ⟨[], (List.append_nil _).symm⟩
  | cons p rest ih =>
    obtain ⟨d, u⟩ := p
    rw [run]
    cases hacc : accepts target_dist st d u with
    | false => rw [step_of_rejects _ _ _ _ hacc]; exact ih st
    | true =>
      rw [step_of_accepts _ _ _ _ hacc]
      obtain ⟨l, hl⟩ := ih ⟨st.x_current - d, st.x_target ++ [st.x_current - d]⟩
      exact ⟨[st.x_current - d] ++ l, by rw [hl, List.append_assoc]⟩

/-- C7: if the target density is non-negative at the initial position of a
run and every drawn u is ≥ 0 (as draws from [0,1) are), then the density at
the final current position is still non-negative, and the final current
position is either the initial position or one of the accepted proposals
emitted in `x_target`: no iteration leaves `x_current` at a
negative-density position.  (Every `ℚ` value is finite, matching
"finite, non-negative".) -/
theorem c7_position_invariant (target_dist : ℚ → ℚ) (st : MState)
    (rs : List (ℚ × ℚ))
    (h0 : 0 ≤ target_dist st.x_current)
    (hu : ∀ p ∈ rs, 0 ≤ p.2) :
    0 ≤ target_dist (run target_dist st rs).x_current ∧
    ((run target_dist st rs).x_current = st.x_current ∨
      (run target_dist st rs).x_current ∈ (run target_dist st rs).x_target) := by
  induction rs generalizing st with
  | nil => exact ⟨h0, Or.inl rfl⟩
  | cons p rest ih =>
    obtain ⟨d, u⟩ := p
    have hrest : ∀ q ∈ rest, 0 ≤ q.2 := fun q hq => hu q (List.mem_cons_of_mem _ hq)
    have hud : 0 ≤ u := hu (d, u) (List.mem_cons_self _ _)
    rw [run]
    cases hacc : accepts target_dist st d u with
    | false =>
      rw [step_of_rejects _ _ _ _ hacc]
      exact ih st h0 hrest
    | true =>
      rw [step_of_accepts _ _ _ _ hacc]
      have h1 : 0 ≤ target_dist
          (⟨st.x_current - d, st.x_target ++ [st.x_current - d]⟩ : MState).x_current :=
        accepts_nonneg_proposal target_dist st d u h0 hud hacc
      obtain ⟨hA, hB⟩ := ih ⟨st.x_current - d, st.x_target ++ [st.x_current - d]⟩ h1 hrest
      refine ⟨hA, Or.inr ?_⟩
      rcases hB with hB | hB
      · rw [hB]
        obtain ⟨l, hl⟩ := run_x_target_grows target_dist
          ⟨st.x_current - d, st.x_target ++ [st.x_current - d]⟩ rest
        rw [hl]
        simp
      · exact hB

/-- C7 witness: the theorem applied at the constant-one density, initial
position 0 and a single-iteration run with u = 1/2. -/
theorem c7_witness :
    0 ≤ (fun _ : ℚ => (1:ℚ))
        (run (fun _ : ℚ => 1) ⟨0, []⟩ [(1, 1/2)]).x_current ∧
    ((run (fun _ : ℚ => 1) ⟨0, []⟩ [(1, 1/2)]).x_current = 0 ∨
      (run (fun _ : ℚ => 1) ⟨0, []⟩ [(1, 1/2)]).x_current ∈
        (run (fun _ : ℚ => 1) ⟨0, []⟩ [(1, 1/2)]).x_target) := by
  exact c7_position_invariant (fun _ => 1) ⟨0, []⟩ [(1, 1/2)]
    zero_le_one
    (by rintro p hp; simp at hp; rw [hp]; norm_num)

/-! ### Claim C8 -/

/-- C8: when the computed acceptance value is the finite number `a` and the
drawn `u` satisfies `u ≥ a`, the iteration is a rejection: the state —
current position and emitted list — is unchanged and no record is emitted;
more generally any rejected iteration leaves the state unchanged, and
every iteration, accepted or rejected, grows the emitted list by at most
one record. -/
theorem c8_reject_frame (target_dist : ℚ → ℚ) (st : MState) (delta u a : ℚ) :
    (accepts target_dist st delta u = false → step target_dist st delta u = st) ∧
    (acceptValue target_dist st.x_current (st.x_current - delta) = .num a →
      a ≤ u →
      accepts target_dist st delta u = false ∧ step target_dist st delta u = st) ∧
    (step target_dist st delta u).x_target.length ≤ st.x_target.length + 1 := by
  refine ⟨step_of_rejects _ _ _ _, fun hv hau => ?_, ?_⟩
  · have ha : accepts target_dist st delta u = false := by
      simp [accepts, hv, uLtAcc, not_lt.mpr hau]
    exact ⟨ha, step_of_rejects _ _ _ _ ha⟩
  · cases hacc : accepts target_dist st delta u with
    | false => rw [step_of_rejects _ _ _ _ hacc]; omega
    | true => rw [step_of_accepts _ _ _ _ hacc]; simp

/-- C8 witness: the theorem applied at the density that is 1 at 0 and 0
elsewhere, current position 0, delta = 1 (so the acceptance value is 0)
and u = 1/2 ≥ 0. -/
theorem c8_witness :
    (accepts (fun x : ℚ => if x = 0 then 1 else 0) ⟨0, []⟩ 1 (1/2) = false ∧
      step (fun x : ℚ => if x = 0 then 1 else 0) ⟨0, []⟩ 1 (1/2) = ⟨0, []⟩) ∧
    (step (fun x : ℚ => if x = 0 then 1 else 0) ⟨0, []⟩ 1 (1/2)).x_target.length ≤
      ([] : List ℚ).length + 1 :=
  ⟨(c8_reject_frame (fun x => if x = 0 then 1 else 0) ⟨0, []⟩ 1 (1/2) 0).2.1
      (by norm_num [acceptValue, floatDiv, pyMinOne]) (by norm_num),
   (c8_reject_frame (fun x => if x = 0 then 1 else 0) ⟨0, []⟩ 1 (1/2) 0).2.2⟩

/-! ### Claim C9 -/

theorem run_last_emitted (target_dist : ℚ → ℚ) (st : MState)
    (rs : List (ℚ × ℚ))
    (hinv : st.x_target = [] ∨ st.x_target.getLast? = some st.x_current) :
    (run target_dist st rs).x_target = [] ∨
      (run target_dist st rs).x_target.getLast? =
        some (run target_dist st rs).x_current := by
  induction rs generalizing st with
  | nil => exact hinv
  | cons p rest ih =>
    obtain ⟨d, u⟩ := p
    rw [run]
    cases hacc : accepts target_dist st d u with
    | false => rw [step_of_rejects _ _ _ _ hacc]; exact ih st hinv
    | true =>
      rw [step_of_accepts _ _ _ _ hacc]
      refine ih _ (Or.inr ?_)
      exact List.getLast?_concat _

/-- C9: an accepted iteration replaces `x_current` by the proposal and the
emitted record is exactly that same value (appended at the end of
`x_target`), so `x_current` is mutated once per accepted iteration; and
starting from any state in which `x_target` is empty or ends with
`x_current` (in particular the loop's initial state with empty
`x_target`), after any run the emitted list is empty (no acceptance
occurred) or its last element equals the final `x_current`. -/
theorem c9_accept_updates_position (target_dist : ℚ → ℚ) (st : MState)
    (delta u : ℚ) (rs : List (ℚ × ℚ))
    (hinv : st.x_target = [] ∨ st.x_target.getLast? = some st.x_current) :
    (accepts target_dist st delta u = true →
      step target_dist st delta u =
        ⟨st.x_current - delta, st.x_target ++ [st.x_current - delta]⟩) ∧
    ((run target_dist st rs).x_target = [] ∨
      (run target_dist st rs).x_target.getLast? =
        some (run target_dist st rs).x_current) :=
  ⟨step_of_accepts target_dist st delta u,
   run_last_emitted target_dist st rs hinv⟩

/-- C9 witness: the theorem applied at the constant-one density, initial
state ⟨0, []⟩, an accepted iteration (delta = 1, u = 1/2) and a
one-iteration run. -/
theorem c9_witness :
    step (fun _ : ℚ => 1) ⟨0, []⟩ 1 (1/2) = ⟨0 - 1, [0 - 1]⟩ ∧
    ((run (fun _ : ℚ => 1) ⟨0, []⟩ [(1, 1/2)]).x_target = [] ∨
      (run (fun _ : ℚ => 1) ⟨0, []⟩ [(1, 1/2)]).x_target.getLast? =
        some (run (fun _ : ℚ => 1) ⟨0, []⟩ [(1, 1/2)]).x_current) := by
  refine ⟨(c9_accept_updates_position (fun _ => 1) ⟨0, []⟩ 1 (1/2) [(1, 1/2)]
      (Or.inl rfl)).1 ?_,
    (c9_accept_updates_position (fun _ => 1) ⟨0, []⟩ 1 (1/2) [(1, 1/2)]
      (Or.inl rfl)).2⟩
  norm_num [accepts, acceptValue, floatDiv, pyMinOne, uLtAcc]

/-! ### Claim C10 -/

theorem run_all_rejected (target_dist : ℚ → ℚ) (st : MState)
    (rs : List (ℚ × ℚ))
    (hrej : ∀ p ∈ rs, accepts target_dist st p.1 p.2 = false) :
    run target_dist st rs = st := by
  induction rs with
  | nil => rfl
  | cons p rest ih =>
    obtain ⟨d, u⟩ := p
    rw [run, step_of_rejects _ _ _ _ (hrej (d, u) (List.mem_cons_self _ _))]
    exact ih (fun q hq => hrej q (List.mem_cons_of_mem _ hq))

/-- C10: the loop initializes `x_target` to the empty list, so the initial
position is never itself emitted as a record — a zero-iteration run
returns the empty emitted list with `x_current` still the initial
position; each iteration either leaves the state entirely unchanged or
appends the accepted proposal (records are only ever accepted proposals);
and a run in which every iteration is rejected also returns the initial
state: empty emitted list, `x_current` equal to the initial position. -/
theorem c10_only_accepted_emitted (target_dist : ℚ → ℚ) (x0 : ℚ)
    (st : MState) (delta u : ℚ) (rs : List (ℚ × ℚ)) :
    run target_dist ⟨x0, []⟩ [] = ⟨x0, []⟩ ∧
    (step target_dist st delta u = st ∨
      (accepts target_dist st delta u = true ∧
        step target_dist st delta u =
          ⟨st.x_current - delta, st.x_target ++ [st.x_current - delta]⟩)) ∧
    ((∀ p ∈ rs, accepts target_dist ⟨x0, []⟩ p.1 p.2 = false) →
      run target_dist ⟨x0, []⟩ rs = ⟨x0, []⟩) := by
  refine ⟨rfl, ?_, run_all_rejected target_dist ⟨x0, []⟩ rs⟩
  cases hacc : accepts target_dist st delta u with
  | false => exact Or.inl (step_of_rejects _ _ _ _ hacc)
  | true => exact Or.inr ⟨rfl, step_of_accepts _ _ _ _ hacc⟩

/-- C10 witness: the theorem applied at the density that is 1 at 0 and 0
elsewhere, initial position 0, one rejected iteration (delta = 1 proposes
-1 where the density is 0, u = 1/2); the all-rejected hypothesis of the
third conjunct is discharged by evaluation. -/
theorem c10_witness :
    run (fun x : ℚ => if x = 0 then 1 else 0) ⟨0, []⟩ [] = ⟨0, []⟩ ∧
    (step (fun x : ℚ => if x = 0 then 1 else 0) ⟨0, []⟩ 1 (1/2) = ⟨0, []⟩ ∨
      (accepts (fun x : ℚ => if x = 0 then 1 else 0) ⟨0, []⟩ 1 (1/2) = true ∧
        step (fun x : ℚ => if x = 0 then 1 else 0) ⟨0, []⟩ 1 (1/2) =
          ⟨0 - 1, [0 - 1]⟩)) ∧
    run (fun x : ℚ => if x = 0 then 1 else 0) ⟨0, []⟩ [(1, 1/2)] = ⟨0, []⟩ := by
  refine ⟨(c10_only_accepted_emitted (fun x => if x = 0 then 1 else 0) 0
      ⟨0, []⟩ 1 (1/2) [(1, 1/2)]).1,
    (c10_only_accepted_emitted (fun x => if x = 0 then 1 else 0) 0
      ⟨0, []⟩ 1 (1/2) [(1, 1/2)]).2.1,
    (c10_only_accepted_emitted (fun x => if x = 0 then 1 else 0) 0
      ⟨0, []⟩ 1 (1/2) [(1, 1/2)]).2.2 ?_⟩
  rintro p hp
  simp at hp
  rw [hp]
  norm_num [accepts, acceptValue, floatDiv, pyMinOne, uLtAcc]
